import Mathlib

/-!
Verification of the GammaScout serial-connection core (`GSConnection.py`)
against its natural-language specification.

The Python source is shallowly embedded: byte streams are modelled as
`List Char` (the source decodes every chunk with latin1, a bijection
between bytes 0..255 and the first 256 code points, before any further
processing), decoded protocol lines as `String`, machine bytes as `Nat`
with explicit `% 256` / `&&& 0xff`, and fallible Python code as
`Except String`/`Option` values.  The file lists all definitions first
and all theorems second.
-/

namespace GSConn

/-! ## Definitions -/

/-! ### Line framer (`_rxdata`, source lines 72-84)

The source appends the decoded chunk to `self._linebuffer`, splits the
whole buffer on `"\r\n"`, keeps the last fragment as the new buffer and
appends all earlier fragments to the message queue.  `splitCRLF` is the
leftmost, non-overlapping split on the two-character terminator, exactly
Python's `str.split("\r\n")`. -/

def splitCRLF : List Char → List (List Char)
  | [] => [[]]
  | '\r' :: '\n' :: rest => [] :: splitCRLF rest
  | c :: rest =>
    match splitCRLF rest with
    | [] => [[c]]
    | l :: ls => (c :: l) :: ls

/-- Interleaving the fragments with the terminator restores the input. -/
def joinCRLF : List (List Char) → List Char
  | [] => []
  | [l] => l
  | l :: l' :: ls => l ++ '\r' :: '\n' :: joinCRLF (l' :: ls)

/-- One `_rxdata` call: append the chunk to the pending line buffer, split on
CR-LF, emit all complete lines (`datagrams[:-1]`), keep the final fragment
(`datagrams[-1]`) pending (source lines 72-84). -/
def rxdata (linebuffer data : List Char) : List (List Char) × List Char :=
  let datagrams := splitCRLF (linebuffer ++ data)
  (datagrams.dropLast, datagrams.getLastD [])

/-- Feed a sequence of chunks through `_rxdata` one at a time, collecting all
emitted complete lines and the final pending buffer. -/
def feedChunks (linebuffer : List Char) : List (List Char) → List (List Char) × List Char
  | [] => ([], linebuffer)
  | chunk :: chunks =>
    let r := rxdata linebuffer chunk
    let r2 := feedChunks r.2 chunks
    (r.1 ++ r2.1, r2.2)

/-! ### Message queue (`_databuffer` with `_nextmsg`, source lines 49-60 and 78-84)

`_nextmsg` pops the oldest buffered line, or returns `None` when the
timeout elapses with the buffer still empty; `_rxdata` appends a batch of
complete lines under the condition-variable lock.  The producer and the
consumers exclude each other on that lock, so the shared buffer evolves
by an interleaving of atomic push and pop steps, which is what `runQueue`
models. -/

def nextmsg : List String → Option String × List String
  | [] => (none, [])
  | x :: xs => (some x, xs)

def qpush (q : List String) (lines : List String) : List String := q ++ lines

inductive QueueOp where
  | push : List String → QueueOp
  | pop : QueueOp
deriving DecidableEq

/-- Run an interleaved sequence of pushes and pops against the buffer,
returning the successfully popped lines in order and the final buffer. -/
def runQueue : List QueueOp → List String → List String × List String
  | [], q => ([], q)
  | .push ls :: ops, q => runQueue ops (qpush q ls)
  | .pop :: ops, q =>
    match nextmsg q with
    | (none, q2) => runQueue ops q2
    | (some x, q2) =>
      let r := runQueue ops q2
      (x :: r.1, r.2)

/-- All lines pushed by a sequence of operations, in push order. -/
def pushedLines : List QueueOp → List String
  | [] => []
  | .push ls :: ops => ls ++ pushedLines ops
  | .pop :: ops => pushedLines ops

/-! ### Expected-response check (`_expectresponse`, source lines 62-70)

The call pops one line and raises unless it is exactly the empty string,
then pops a second line and raises unless it exactly equals the expected
text.  A timed-out pop yields `None`, which compares unequal to any
string, hence also raises. -/

def exceptOk {ε α : Type} : Except ε α → Bool
  | .ok _ => true
  | .error _ => false

def expectresponse (string : String) (q : List String) : Except String (List String) :=
  let r1 := nextmsg q
  if r1.1 ≠ some "" then
    .error "Waiting for first response datagram returned unexpected value while expecting empty string."
  else
    let r2 := nextmsg r1.2
    if r2.1 ≠ some string then
      .error "Waiting for second response datagram returned unexpected value."
    else .ok r2.2

/-! ### Decimal and hexadecimal text (used by `getversion`, `readlog`, `readconfig`)

`int(s)` and `int(s, 16)` applied by the source to regex capture groups
always see bare digit runs, which is what these helpers decode.  (Python's
`int` also tolerates surrounding whitespace and a sign; no caller in this
source can produce such input from a matched group, and for bulk hex
lines the protocol carries bare hex digits, so those forms are outside
the model.) -/

def digitVal (c : Char) : Nat := c.toNat - '0'.toNat

/-- Value of one hex digit `[0-9a-fA-F]`, by code point. -/
def hexVal (c : Char) : Option Nat :=
  if 48 ≤ c.toNat ∧ c.toNat ≤ 57 then some (c.toNat - 48)
  else if 97 ≤ c.toNat ∧ c.toNat ≤ 102 then some (c.toNat - 97 + 10)
  else if 65 ≤ c.toNat ∧ c.toNat ≤ 70 then some (c.toNat - 65 + 10)
  else none

def isHexDigitChar (c : Char) : Bool := (hexVal c).isSome

def natOfDecDigits (l : List Char) : Nat := l.foldl (fun a c => 10 * a + digitVal c) 0

def natOfHexDigits (l : List Char) : Nat := l.foldl (fun a c => 16 * a + (hexVal c).getD 0) 0

/-- One hex byte, two hex digits (`int(nextmsg[2*i : 2*i+2], 16)`). -/
def hexByte (c1 c2 : Char) : Option Nat := do
  let h1 ← hexVal c1
  let h2 ← hexVal c2
  pure (16 * h1 + h2)

/-- Decode a line into bytes two hex digits at a time, exactly
`[int(nextmsg[2*i : 2*i+2], 16) for i in range(len(nextmsg)//2)]`: an odd
trailing character is silently ignored (`range` truncates), a non-hex pair
raises (`ValueError`, modelled as `none`). -/
def hexPairs : List Char → Option (List Nat)
  | [] => some []
  | [_] => some []
  | c1 :: c2 :: rest => do
    let b ← hexByte c1 c2
    let bs ← hexPairs rest
    pure (b :: bs)

/-! ### Version response parsing (`getversion`, source lines 116-144)

The PC-mode pattern is built in the source from the template
`"Version ([0-9]\.[0-9]{2}) " + RE.GDECIMAL + " " + RE.GHEXADECIMAL + " ([0-9]{2})\.([0-9]{2})\.([0-9]{2}) ([0-9]{2}):([0-9]{2}):([0-9]{2})"`.
Modelled from the spec: the `RE` pattern-matcher collaborator itself is
not under src/; per the spec it matches a line against this fixed-format
template (`Version X.YY <decimal> <hex> DD.MM.YY HH:MM:SS`) and exposes
the captured substrings by index, with Python `re.match` prefix
semantics (trailing text after the matched prefix is allowed). -/

structure PCVersionFields where
  version : String
  serial : Nat
  buffill : Nat
  day : Nat
  month : Nat
  year2 : Nat
  hour : Nat
  minute : Nat
  second : Nat
deriving DecidableEq, Repr

/-- Strip an exact literal prefix. -/
def dropLit : List Char → List Char → Option (List Char)
  | [], l => some l
  | _ :: _, [] => none
  | p :: ps, c :: cs => if c = p then dropLit ps cs else none

/-- Strip one exact literal character. -/
def dropCharLit (ch : Char) : List Char → Option (List Char)
  | c :: cs => if c = ch then some cs else none
  | [] => none

/-- Match `([0-9]{2})`, returning its decimal value. -/
def parse2dig : List Char → Option (Nat × List Char)
  | c1 :: c2 :: rest =>
    if c1.isDigit && c2.isDigit then some (10 * digitVal c1 + digitVal c2, rest)
    else none
  | _ => none

def matchVersionPC (s : String) : Option PCVersionFields := do
  let r1 ← dropLit "Version ".data s.data
  match r1 with
  | a :: dot :: b :: c :: r2 =>
    if a.isDigit && dot = '.' && b.isDigit && c.isDigit then do
      let r3 ← dropCharLit ' ' r2
      let dec := r3.takeWhile Char.isDigit
      let r4 := r3.dropWhile Char.isDigit
      if dec = [] then none else do
        let r5 ← dropCharLit ' ' r4
        let hex := r5.takeWhile isHexDigitChar
        let r6 := r5.dropWhile isHexDigitChar
        if hex = [] then none else do
          let r7 ← dropCharLit ' ' r6
          let (day, r8) ← parse2dig r7
          let r9 ← dropCharLit '.' r8
          let (mon, r10) ← parse2dig r9
          let r11 ← dropCharLit '.' r10
          let (yy, r12) ← parse2dig r11
          let r13 ← dropCharLit ' ' r12
          let (hh, r14) ← parse2dig r13
          let r15 ← dropCharLit ':' r14
          let (mi, r16) ← parse2dig r15
          let r17 ← dropCharLit ':' r16
          let (ss, _) ← parse2dig r17
          pure ⟨String.mk [a, dot, b, c], natOfDecDigits dec, natOfHexDigits hex,
            day, mon, yy, hh, mi, ss⟩
    else none
  | _ => none

/-! ### Python `datetime.datetime` construction (`getversion` line 141, `settime`)

`datetime.datetime(year, mon, day, hour, mint, sec)` validates its fields
and raises `ValueError` when any is out of range (proleptic Gregorian
calendar, years 1..9999). -/

structure PyDatetime where
  year : Nat
  month : Nat
  day : Nat
  hour : Nat
  minute : Nat
  second : Nat
deriving DecidableEq, Repr

def isLeapYear (y : Nat) : Bool := y % 4 = 0 && (y % 100 ≠ 0 || y % 400 = 0)

def daysInMonth (y m : Nat) : Nat :=
  if m = 2 then (if isLeapYear y then 29 else 28)
  else if m = 4 ∨ m = 6 ∨ m = 9 ∨ m = 11 then 30
  else 31

def mkPyDatetime (y mo d h mi s : Nat) : Option PyDatetime :=
  if 1 ≤ y ∧ y ≤ 9999 ∧ 1 ≤ mo ∧ mo ≤ 12 ∧ 1 ≤ d ∧ d ≤ daysInMonth y mo ∧
      h ≤ 23 ∧ mi ≤ 59 ∧ s ≤ 59
  then some ⟨y, mo, d, h, mi, s⟩ else none

/-! ### Connection state and command engine (`getversion` / `switchmode`)

`ConnState` carries the message queue contents and the ordered list of
transport writes made so far; command methods thread it explicitly. -/

structure ConnState where
  queue : List String
  written : List String
deriving DecidableEq, Repr

def writeS (s : String) (st : ConnState) : ConnState :=
  { st with written := st.written ++ [s] }

def nextmsgS (st : ConnState) : Option String × ConnState :=
  let r := nextmsg st.queue
  (r.1, { st with queue := r.2 })

inductive Mode where
  | Standard
  | PC
deriving DecidableEq, Repr

/-- The dictionary `getversion` returns: `{"Mode": "Standard"}`, or the
PC-mode fields `version`, `serial`, `buffill` and `datetime`. -/
inductive VersionResult where
  | standard
  | pc (version : String) (serial : Nat) (buffill : Nat) (deviceClock : PyDatetime)
deriving DecidableEq, Repr

def VersionResult.mode : VersionResult → Mode
  | .standard => .Standard
  | .pc _ _ _ _ => .PC

/-- `getversion` (source lines 116-144): write `"v"`, pop two lines (a
timeout on either is fatal), then parse the second line. -/
def getversionS (st : ConnState) : Except String (VersionResult × ConnState) :=
  let st1 := writeS "v" st
  let r1 := nextmsgS st1
  match r1.1 with
  | none => .error "Timeout waiting for first datagram of version."
  | some _ =>
    let r2 := nextmsgS r1.2
    match r2.1 with
    | none => .error "Timeout waiting for second datagram of version."
    | some versionstr =>
      if versionstr = "Standard" then .ok (.standard, r2.2)
      else
        match matchVersionPC versionstr with
        | some f =>
          match mkPyDatetime (f.year2 + 2000) f.month f.day f.hour f.minute f.second with
          | some dt => .ok (.pc f.version f.serial f.buffill dt, r2.2)
          | none => .error "ValueError: day is out of range for month"
        | none => .error "Unparsable version string."

def expectresponseS (string : String) (st : ConnState) : Except String ConnState :=
  match expectresponse string st.queue with
  | .ok q2 => .ok { st with queue := q2 }
  | .error e => .error e

/-- `switchmode` (source lines 146-160): query the current mode, return at
once if it already equals the target, otherwise write `"X"` or `"P"` and
require the corresponding confirmation response. -/
def switchmodeS (newmode : Mode) (st : ConnState) : Except String ConnState :=
  match getversionS st with
  | .error e => .error e
  | .ok (info, st1) =>
    if info.mode = newmode then .ok st1
    else
      match newmode with
      | .Standard => expectresponseS "PC-Mode beendet" (writeS "X" st1)
      | .PC => expectresponseS "PC-Mode gestartet" (writeS "P" st1)

/-! ### Log-line checksum (`_linechecksum`, source lines 162-163, used at 181-187) -/

/-- Sum of all bytes of the line except the last, masked to one byte. -/
def linechecksum (data : List Nat) : Nat := data.dropLast.sum &&& 0xff

/-- The per-line verification performed by `readlog` at line 183: the
computed checksum equals the trailing byte of the line. -/
def checksumPasses (logdata : List Nat) : Bool :=
  linechecksum logdata == logdata.getLastD 0

/-! ### Bulk log read loop (`readlog`, source lines 165-189)

Each popped line must have even length (else a fatal protocol exception),
is decoded as hex pairs, and its checksum is compared against its last
byte.  On a mismatch the source executes
`print("Warning: Log line %d has checksum error, calculated 0x%x, transmitted 0x%x." % (calcchksum, logdata[-1]), ...)`:
the format string holds three conversion specifiers but the argument
tuple has only two members, and Python's `%` operator raises `TypeError`
in that case, before `print` ever runs.  All but the trailing checksum
byte of each line are appended to the log; a timed-out pop ends the
loop. -/

def warningFormat : String :=
  "Warning: Log line %d has checksum error, calculated 0x%x, transmitted 0x%x."

/-- Number of arguments consumed by the conversion specifiers of a Python
`%` format string (`%%` is a literal percent sign and consumes none; the
specifiers appearing in this source are all of the simple one-letter
form). -/
def countFormatSpecs : List Char → Nat
  | [] => 0
  | ['%'] => 1
  | '%' :: '%' :: rest => countFormatSpecs rest
  | '%' :: _ :: rest => countFormatSpecs rest + 1
  | _ :: rest => countFormatSpecs rest

/-- Python `fmt % args` with a tuple of `nargs` members succeeds only when
the format consumes exactly that many arguments; otherwise it raises
`TypeError`. -/
def percentFormatArityOk (fmt : String) (nargs : Nat) : Bool :=
  countFormatSpecs fmt.data == nargs

/-- The body of one `readlog` loop iteration for a popped line
(source lines 178-187), returning the decoded bytes of the line. -/
def readlogLine (nextmsg : String) : Except String (List Nat) :=
  if nextmsg.length % 2 ≠ 0 then
    .error "Protocol line was not a multiple of two bytes."
  else
    match hexPairs nextmsg.data with
    | none => .error "ValueError: invalid literal for int() with base 16"
    | some logdata =>
      match logdata.getLast? with
      | none => .error "IndexError: list index out of range"
      | some lastByte =>
        if linechecksum logdata ≠ lastByte then
          if percentFormatArityOk warningFormat 2 then .ok logdata
          else .error "TypeError: not enough arguments for format string"
        else .ok logdata

/-- The `readlog` bulk loop over the successively popped lines
(`None` from a timed-out pop, i.e. queue exhaustion, breaks the loop);
each successful line contributes `logdata[:-1]`. -/
def readlogLoop : List String → Except String (List Nat)
  | [] => .ok []
  | msg :: rest =>
    match readlogLine msg with
    | .error e => .error e
    | .ok logdata =>
      match readlogLoop rest with
      | .error e => .error e
      | .ok restLog => .ok (logdata.dropLast ++ restLog)

/-! ### Time setting (`settime` lines 107-111, `_writeslow` lines 99-105)

`settime` renders
`"t%02d%02d%02d%02d%02d%02d" % (day, month, year - 2000, hour, minute, second)`
and slow-writes it: one transport write per single-byte slice `b[i:i+1]`. -/

/-- Decimal digits of `n` (most significant first), with a fuel argument
so the definition is structural; `pyDecimal` supplies enough fuel. -/
def pyDecimalAux : Nat → Nat → List Char
  | 0, _ => []
  | fuel + 1, n =>
    if n < 10 then [Nat.digitChar n]
    else pyDecimalAux fuel (n / 10) ++ [Nat.digitChar (n % 10)]

def pyDecimal (n : Nat) : List Char := pyDecimalAux (n + 1) n

/-- Python `"%02d" % v`: decimal rendering, zero-padded to a minimum
total width of 2, sign first for negative values. -/
def pyFormat02d (v : Int) : List Char :=
  if v < 0 then '-' :: pyDecimal v.natAbs
  else List.replicate (2 - (pyDecimal v.natAbs).length) '0' ++ pyDecimal v.natAbs

def settimeCommand (t : PyDatetime) : List Char :=
  't' :: (pyFormat02d t.day ++ pyFormat02d t.month ++ pyFormat02d ((t.year : Int) - 2000) ++
    pyFormat02d t.hour ++ pyFormat02d t.minute ++ pyFormat02d t.second)

/-- `_writeslow` issues one transport write per single-byte slice of the
latin1-encoded command, in order. -/
def writeslowWrites (command : List Char) : List (List Char) := command.map (fun c => [c])

/-- `settime`: the sequence of transport writes it issues and the response
text it then requires via `_expectresponse`. -/
def settimeTrace (t : PyDatetime) : List (List Char) × String :=
  (writeslowWrites (settimeCommand t), "Datum und Zeit gestellt")

/-- Two zero-padded decimal digits — the rendering the spec claims for
every field of the time-set command. -/
def twoDigits (n : Nat) : List Char := [Nat.digitChar (n / 10), Nat.digitChar (n % 10)]

/-! ### Configuration read (`readconfig`, source lines 200-221)

The first popped line is discarded (`linecnt == 1` matches no branch),
the second must match the three-field pattern built from
`RE(RE.GHEXADECIMAL + " " + RE.GHEXADECIMAL + " " + RE.GHEXADECIMAL)`
(modelled from the spec, the `RE` collaborator being outside src/: three
runs of hex digits separated by single spaces, matched as a prefix with
`re.match` semantics); its first two fields are appended as individual
values, its third replaces the line as hex payload, and every later line
is decoded as raw hex pairs.  A timed-out pop ends the loop and the
collected values are returned through `bytes(log)`. -/

def matchConfigFirstline (s : String) : Option (Nat × Nat × String) := do
  let h1 := s.data.takeWhile isHexDigitChar
  let r1 := s.data.dropWhile isHexDigitChar
  if h1 = [] then none else do
    let r2 ← dropCharLit ' ' r1
    let h2 := r2.takeWhile isHexDigitChar
    let r3 := r2.dropWhile isHexDigitChar
    if h2 = [] then none else do
      let r4 ← dropCharLit ' ' r3
      let h3 := r4.takeWhile isHexDigitChar
      if h3 = [] then none
      else pure (natOfHexDigits h1, natOfHexDigits h2, String.mk h3)

/-- The `linecnt >= 3` part of the `readconfig` loop: every line decoded
as raw hex pairs and concatenated. -/
def readconfigTail : List String → Except String (List Nat)
  | [] => .ok []
  | msg :: rest =>
    match hexPairs msg.data with
    | none => .error "ValueError: invalid literal for int() with base 16"
    | some logdata =>
      match readconfigTail rest with
      | .error e => .error e
      | .ok restLog => .ok (logdata ++ restLog)

/-- The full `readconfig` pop loop over the queue contents. -/
def readconfigLoop : List String → Except String (List Nat)
  | [] => .ok []
  | _l1 :: rest =>
    match rest with
    | [] => .ok []
    | l2 :: rest2 =>
      match matchConfigFirstline l2 with
      | none => .error "First configuration data line format unexpected."
      | some (a, b, payload) =>
        match hexPairs payload.data with
        | none => .error "ValueError: invalid literal for int() with base 16"
        | some ds =>
          match readconfigTail rest2 with
          | .error e => .error e
          | .ok restLog => .ok (a :: b :: (ds ++ restLog))

/-- `bytes(log)` raises `ValueError` unless every member is a byte. -/
def pyBytes (log : List Nat) : Except String (List Nat) :=
  if log.all (· < 256) then .ok log else .error "ValueError: bytes must be in range(0, 256)"

/-- `readconfig`'s returned byte sequence for given queue contents. -/
def readconfigQ (queue : List String) : Except String (List Nat) :=
  match readconfigLoop queue with
  | .error e => .error e
  | .ok log => pyBytes log

/-- Decode a batch of lines as raw hex pairs (used to state the
raw-payload part of the `readconfig` claim). -/
def hexPairsAll : List String → Option (List (List Nat))
  | [] => some []
  | m :: rest => do
    let d ← hexPairs m.data
    let ds ← hexPairsAll rest
    pure (d :: ds)

/-! ## Theorems -/

theorem splitCRLF_ne_nil (l : List Char) : splitCRLF l ≠ [] := by
  induction l using splitCRLF.induct with
  | case1 => simp [splitCRLF]
  | case2 rest ih => simp [splitCRLF]
  | case3 c rest h heq ih => exact absurd heq ih
  | case4 c rest h l ls heq ih =>
    rw [splitCRLF.eq_3 c rest h, heq]
    simp

theorem joinCRLF_splitCRLF (l : List Char) : joinCRLF (splitCRLF l) = l := by
  induction l using splitCRLF.induct with
  | case1 => simp [splitCRLF, joinCRLF]
  | case2 rest ih =>
    rw [splitCRLF.eq_2]
    obtain ⟨m, ms, hms⟩ : ∃ m ms, splitCRLF rest = m :: ms := by
      cases h : splitCRLF rest with
      | nil => exact absurd h (splitCRLF_ne_nil rest)
      | cons m ms => exact ⟨m, ms, rfl⟩
    rw [hms] at ih ⊢
    simpa [joinCRLF] using ih
  | case3 c rest h heq ih => exact absurd heq (splitCRLF_ne_nil rest)
  | case4 c rest h l ls heq ih =>
    rw [splitCRLF.eq_3 c rest h, heq]
    rw [heq] at ih
    cases ls with
    | nil => simp [joinCRLF] at ih ⊢; exact ih
    | cons l' ls' =>
      simp only [joinCRLF] at ih ⊢
      rw [← ih]
      simp

theorem getLastD_of_ne_nil {α : Type} (t : List α) (d d' : α) (h : t ≠ []) :
    t.getLastD d = t.getLastD d' := by
  rw [List.getLastD_eq_getLast?, List.getLastD_eq_getLast?]
  cases ht : t.getLast? with
  | none => exact absurd (List.getLast?_eq_none_iff.mp ht) h
  | some x => rfl

theorem getLastD_append_of_ne_nil {α : Type} (x y : List α) (d : α) (h : y ≠ []) :
    (x ++ y).getLastD d = y.getLastD d := by
  rw [List.getLastD_eq_getLast?, List.getLastD_eq_getLast?, List.getLast?_append]
  cases hy : y.getLast? with
  | none => exact absurd (List.getLast?_eq_none_iff.mp hy) h
  | some v => rfl

/-- Splitting `a ++ b` splits `a`, keeps its last fragment pending and
resumes with that fragment prepended to `b` — the heart of the framer's
chunk-boundary insensitivity. -/
theorem splitCRLF_append (a : List Char) : ∀ b : List Char,
    splitCRLF (a ++ b) =
      (splitCRLF a).dropLast ++ splitCRLF ((splitCRLF a).getLastD [] ++ b) := by
  induction a using splitCRLF.induct with
  | case1 => intro b; simp [splitCRLF]
  | case2 rest ih =>
    intro b
    obtain ⟨m, ms, hms⟩ : ∃ m ms, splitCRLF rest = m :: ms := by
      cases h : splitCRLF rest with
      | nil => exact absurd h (splitCRLF_ne_nil rest)
      | cons m ms => exact ⟨m, ms, rfl⟩
    have lhs : splitCRLF (('\r' :: '\n' :: rest) ++ b) = [] :: splitCRLF (rest ++ b) := by
      rw [List.cons_append, List.cons_append, splitCRLF.eq_2]
    rw [lhs, ih b, splitCRLF.eq_2, hms]
    simp only [List.dropLast_cons_of_ne_nil (List.cons_ne_nil m ms), List.getLastD_cons,
      List.cons_append]
  | case3 c rest h heq ih => exact absurd heq (splitCRLF_ne_nil rest)
  | case4 c rest h l ls heq ih =>
    intro b
    cases ls with
    | nil =>
      -- `rest` contains no terminator, so the whole of `c :: rest` stays pending.
      have hrest : l = rest := by
        have := joinCRLF_splitCRLF rest
        rw [heq] at this
        simpa [joinCRLF] using this
      rw [splitCRLF.eq_3 c rest h, heq, hrest]
      simp [joinCRLF]
    | cons l2 ls2 =>
      have hrestne : rest ≠ [] := by
        intro hr
        rw [hr] at heq
        simp [splitCRLF] at heq
      obtain ⟨r0, rs, hr⟩ : ∃ r0 rs, rest = r0 :: rs := by
        cases rest with
        | nil => exact absurd rfl hrestne
        | cons r0 rs => exact ⟨r0, rs, rfl⟩
      have h' : ∀ r1 : List Char, c = '\r' → rest ++ b = '\n' :: r1 → False := by
        intro r1 hc hb
        rw [hr] at hb
        have : r0 = '\n' := by
          have := congrArg (fun t => t.head?) hb
          simpa using this
        exact h rs hc (by rw [hr, this])
      have lhs : splitCRLF ((c :: rest) ++ b) =
          match splitCRLF (rest ++ b) with
          | [] => [[c]]
          | m :: ms => (c :: m) :: ms := by
        rw [List.cons_append, splitCRLF.eq_3 c (rest ++ b) h']
      rw [lhs, ih b, splitCRLF.eq_3 c rest h, heq]
      simp

theorem feedChunks_cons (buf c : List Char) (cs : List (List Char)) :
    feedChunks buf (c :: cs) = rxdata buf (c ++ cs.flatten) := by
  induction cs generalizing buf c with
  | nil => simp [feedChunks, rxdata]
  | cons c2 cs2 ih =>
    have hstep : feedChunks buf (c :: c2 :: cs2) =
        ((rxdata buf c).1 ++ (feedChunks (rxdata buf c).2 (c2 :: cs2)).1,
          (feedChunks (rxdata buf c).2 (c2 :: cs2)).2) := rfl
    rw [hstep, ih]
    have hS2ne : splitCRLF ((splitCRLF (buf ++ c)).getLastD [] ++ (c2 ++ cs2.flatten)) ≠ [] :=
      splitCRLF_ne_nil _
    simp only [rxdata, List.flatten_cons]
    rw [Prod.mk.injEq]
    refine ⟨?_, ?_⟩
    · rw [← List.append_assoc buf c (c2 ++ cs2.flatten)]
      rw [splitCRLF_append (buf ++ c) (c2 ++ cs2.flatten)]
      rw [List.dropLast_append_of_ne_nil _ hS2ne]
    · rw [← List.append_assoc buf c (c2 ++ cs2.flatten)]
      rw [splitCRLF_append (buf ++ c) (c2 ++ cs2.flatten)]
      rw [getLastD_append_of_ne_nil _ _ [] hS2ne]

/-- C3: feeding a byte stream to the line framer in arbitrary chunks emits
exactly the lines, in the order, that feeding it as one chunk emits, and
leaves the same pending buffer; in particular a CR-LF terminator split
across two chunks is still one line boundary. -/
theorem claim_C3_framing_split_invariance (stream : List Char) (chunks : List (List Char))
    (h : chunks.flatten = stream) :
    feedChunks [] chunks = rxdata [] stream := by
  subst h
  cases chunks with
  | nil => rfl
  | cons c cs => rw [feedChunks_cons, List.flatten_cons]

theorem claim_C3_witness :
    feedChunks [] [['a', '\r'], ['\n', 'b', '\r', '\n']] =
      rxdata [] (List.flatten [['a', '\r'], ['\n', 'b', '\r', '\n']]) :=
  claim_C3_framing_split_invariance _ _ rfl

theorem runQueue_invariant (ops : List QueueOp) (q0 : List String) :
    (runQueue ops q0).1 ++ (runQueue ops q0).2 = q0 ++ pushedLines ops := by
  induction ops generalizing q0 with
  | nil => simp [runQueue, pushedLines]
  | cons op ops ih =>
    cases op with
    | push ls => simp [runQueue, pushedLines, qpush, ih]
    | pop =>
      cases q0 with
      | nil => simpa [runQueue, nextmsg, pushedLines] using ih []
      | cons x xs =>
        have := ih xs
        simp only [runQueue, nextmsg, pushedLines, List.cons_append]
        rw [this]

/-- C4: the message queue is FIFO — under any interleaving of batched
pushes and pops, the popped lines followed by the remaining buffer are
exactly the initial contents followed by all pushed lines in push order
(no reordering, duplication or loss), a successful pop removes and
returns the oldest line, and a timed-out pop returns the no-message
result leaving the queue unchanged. -/
theorem claim_C4_queue_fifo :
    (∀ (ops : List QueueOp) (q0 : List String),
        (runQueue ops q0).1 ++ (runQueue ops q0).2 = q0 ++ pushedLines ops) ∧
    nextmsg [] = (none, []) ∧
    (∀ (x : String) (xs : List String), nextmsg (x :: xs) = (some x, xs)) :=
  ⟨runQueue_invariant, rfl, fun _ _ => rfl⟩

theorem claim_C4_witness :
    (runQueue [.push ["a", "b"], .pop, .push ["c"], .pop, .pop, .pop] []).1 ++
        (runQueue [.push ["a", "b"], .pop, .push ["c"], .pop, .pop, .pop] []).2 =
      [] ++ pushedLines [.push ["a", "b"], .pop, .push ["c"], .pop, .pop, .pop] :=
  claim_C4_queue_fifo.1 [.push ["a", "b"], .pop, .push ["c"], .pop, .pop, .pop] []

/-- C5: `_expectresponse(expected)` succeeds exactly when the first popped
line is the empty string and the second popped line equals `expected`;
with queue `["", "Datum und Zeit gestellt"]` it returns normally for that
expected text, and with `["", "Wrong"]` (or a non-empty first line, or a
timed-out pop, both covered by the characterisation) it raises. -/
theorem claim_C5_expectresponse :
    expectresponse "Datum und Zeit gestellt" ["", "Datum und Zeit gestellt"] = .ok [] ∧
    exceptOk (expectresponse "Datum und Zeit gestellt" ["", "Wrong"]) = false ∧
    ∀ (s : String) (q : List String),
      exceptOk (expectresponse s q) = true ↔ q.head? = some "" ∧ q.tail.head? = some s := by
  refine ⟨rfl, rfl, ?_⟩
  intro s q
  cases q with
  | nil => simp [expectresponse, nextmsg, exceptOk]
  | cons h t =>
    by_cases hh : h = ""
    · cases t with
      | nil => simp [expectresponse, nextmsg, exceptOk, hh]
      | cons h2 t2 =>
        by_cases h2s : h2 = s <;> simp [expectresponse, nextmsg, exceptOk, hh, h2s]
    · simp [expectresponse, nextmsg, exceptOk, hh]

theorem claim_C5_witness :
    exceptOk (expectresponse "ok" ["", "ok"]) = true :=
  (claim_C5_expectresponse.2.2 "ok" ["", "ok"]).mpr (by simp)

/-- C2 fails as stated: on the second response line
`"Version 6.00 00123 01F4 15.03.21 10:30:00"` the buffer-fill field is
`int("01F4", 16) = 500`, not 501, so `getversion` does not return the
claimed result. -/
theorem claim_C2_counterexample :
    getversionS ⟨["", "Version 6.00 00123 01F4 15.03.21 10:30:00"], []⟩ ≠
      .ok (.pc "6.00" 123 501 ⟨2021, 3, 15, 10, 30, 0⟩, ⟨[], ["v"]⟩) := by
  have h : getversionS ⟨["", "Version 6.00 00123 01F4 15.03.21 10:30:00"], []⟩ =
      .ok (.pc "6.00" 123 500 ⟨2021, 3, 15, 10, 30, 0⟩, ⟨[], ["v"]⟩) := rfl
  rw [h]
  simp

/-- C2 (amended): when the second response line to the version query is
exactly `"Version 6.00 00123 01F4 15.03.21 10:30:00"`, `getversion`
returns mode PC, version `"6.00"`, serial 123, buffer fill 500 and device
clock 2021-03-15T10:30:00. -/
theorem claim_C2_version_parse_pc :
    getversionS ⟨["", "Version 6.00 00123 01F4 15.03.21 10:30:00"], []⟩ =
      .ok (.pc "6.00" 123 500 ⟨2021, 3, 15, 10, 30, 0⟩, ⟨[], ["v"]⟩) := rfl

set_option maxRecDepth 4096 in
theorem getversionS_effects (st : ConnState) (info : VersionResult) (st1 : ConnState)
    (h : getversionS st = .ok (info, st1)) :
    st1.written = st.written ++ ["v"] ∧ st1.queue = st.queue.drop 2 := by
  obtain ⟨q, w⟩ := st
  cases q with
  | nil => simp [getversionS, writeS, nextmsgS, nextmsg] at h
  | cons x q1 =>
    cases q1 with
    | nil => simp [getversionS, writeS, nextmsgS, nextmsg] at h
    | cons y rest =>
      simp only [getversionS, writeS, nextmsgS, nextmsg] at h
      split at h
      · obtain ⟨-, h2⟩ := Prod.mk.inj (Except.ok.inj h)
        rw [← h2]
        exact ⟨rfl, rfl⟩
      · split at h
        · split at h
          · obtain ⟨-, h2⟩ := Prod.mk.inj (Except.ok.inj h)
            rw [← h2]
            exact ⟨rfl, rfl⟩
          · exact absurd h (by simp)
        · exact absurd h (by simp)

/-- C7: when the mode reported by `getversion` equals the requested target
mode, `switchmode` returns the post-`getversion` state unchanged — the
only transport write is the `"v"` of the version query (no `"X"` or
`"P"`), and no expected-response check or further pop happens. -/
theorem claim_C7_switchmode_noop (st : ConnState) (info : VersionResult) (st1 : ConnState)
    (target : Mode) (h : getversionS st = .ok (info, st1)) (hm : info.mode = target) :
    switchmodeS target st = .ok st1 ∧ st1.written = st.written ++ ["v"] := by
  refine ⟨?_, (getversionS_effects st info st1 h).1⟩
  simp [switchmodeS, h, hm]

theorem claim_C7_witness :
    switchmodeS .Standard ⟨["x", "Standard"], []⟩ = .ok ⟨[], ["v"]⟩ ∧
      (⟨[], ["v"]⟩ : ConnState).written = ([] : List String) ++ ["v"] :=
  claim_C7_switchmode_noop ⟨["x", "Standard"], []⟩ .standard ⟨[], ["v"]⟩ .Standard rfl rfl

theorem sum_set_add (l : List Nat) (i a : Nat) (h : i < l.length) :
    (l.set i a).sum + l.getD i 0 = l.sum + a := by
  induction l generalizing i with
  | nil => simp at h
  | cons x xs ih =>
    cases i with
    | zero => simp [List.sum_cons]; omega
    | succ j =>
      have hj : j < xs.length := by simpa using h
      have := ih j hj
      simp only [List.set, List.sum_cons, List.getD_cons_succ]
      omega

theorem xor_two_pow_mod_ne (p k : Nat) (hk : k < 8) :
    (p ^^^ 2 ^ k) % 256 ≠ p % 256 := by
  intro h
  have h256 : (256 : Nat) = 2 ^ 8 := by norm_num
  have h1 : ((p ^^^ 2 ^ k) % 2 ^ 8).testBit k = ((p % 2 ^ 8)).testBit k := by
    rw [← h256, h]
  rw [Nat.testBit_mod_two_pow, Nat.testBit_mod_two_pow, Nat.testBit_xor,
    Nat.testBit_two_pow_self] at h1
  simp [hk] at h1

theorem and_255_eq_mod (x : Nat) : x &&& 0xff = x % 256 := by
  have h : (0xff : Nat) = 2 ^ 8 - 1 := by norm_num
  rw [h, Nat.and_pow_two_sub_one_eq_mod]

theorem getLastD_concat {α : Type} (l : List α) (x d : α) : (l ++ [x]).getLastD d = x := by
  rw [getLastD_append_of_ne_nil l [x] d (by simp)]
  rfl

/-- C6: appending `sum(payload) mod 256` as a trailing byte makes the
per-line checksum verification of `readlog` pass, and flipping any single
bit of any payload (non-trailing) byte makes it fail. -/
theorem claim_C6_checksum_roundtrip (payload : List Nat) (hne : payload ≠ [])
    (i k : Nat) (hi : i < payload.length) (hk : k < 8) :
    checksumPasses (payload ++ [payload.sum &&& 0xff]) = true ∧
    checksumPasses (payload.set i (payload.getD i 0 ^^^ 2 ^ k) ++ [payload.sum &&& 0xff]) =
      false := by
  constructor
  · simp only [checksumPasses, linechecksum, List.dropLast_concat, getLastD_concat]
    exact beq_self_eq_true _
  · simp only [checksumPasses, linechecksum, List.dropLast_concat, getLastD_concat]
    rw [and_255_eq_mod, and_255_eq_mod]
    rw [beq_eq_false_iff_ne]
    intro hcontra
    have hsum := sum_set_add payload i (payload.getD i 0 ^^^ 2 ^ k) hi
    have hxne := xor_two_pow_mod_ne (payload.getD i 0) k hk
    have hmods := congrArg (fun z => z % 256) hsum
    simp only at hmods
    omega

theorem claim_C6_witness :
    checksumPasses ([1, 2] ++ [List.sum [1, 2] &&& 0xff]) = true ∧
    checksumPasses (List.set [1, 2] 0 (List.getD [1, 2] 0 0 ^^^ 2 ^ 1) ++
        [List.sum [1, 2] &&& 0xff]) = false :=
  claim_C6_checksum_roundtrip [1, 2] (by decide) 0 1 (by decide) (by decide)

/-- C1 fails on the code: the warning print at source line 185 interpolates
a format string with three conversion specifiers against a two-member
tuple, so the first checksum-mismatching line (here `"0001"`, whose
payload byte 0x00 sums to 0x00 while the trailing byte is 0x01) makes the
`%` operator raise `TypeError` and abort `readlog` instead of merely
logging a warning and returning the data. -/
theorem claim_C1_checksum_mismatch_raises :
    countFormatSpecs warningFormat.data = 3 ∧
    readlogLoop ["0001"] = .error "TypeError: not enough arguments for format string" :=
  ⟨rfl, rfl⟩

/-- C10: an empty popped line passes the even-length check, decodes to an
empty byte list, and the `logdata[-1]` access in the checksum comparison
then raises `IndexError`, aborting `readlog` — the empty line is fatal,
not end-of-transmission and not an empty payload. -/
theorem claim_C10_empty_line_fatal (pre rest : List String)
    (hpre : ∀ l ∈ pre, exceptOk (readlogLine l) = true) :
    readlogLoop (pre ++ "" :: rest) = .error "IndexError: list index out of range" := by
  induction pre with
  | nil => rfl
  | cons p ps ih =>
    have hp := hpre p (by simp)
    have hps : ∀ l ∈ ps, exceptOk (readlogLine l) = true := fun l hl => hpre l (by simp [hl])
    obtain ⟨d, hd⟩ : ∃ d, readlogLine p = .ok d := by
      cases hq : readlogLine p with
      | ok d => exact ⟨d, rfl⟩
      | error e => rw [hq] at hp; simp [exceptOk] at hp
    simp only [List.cons_append, readlogLoop, hd, List.append_eq, ih hps]

theorem claim_C10_witness :
    readlogLoop (["0000"] ++ "" :: []) = .error "IndexError: list index out of range" :=
  claim_C10_empty_line_fatal ["0000"] [] (by decide)

theorem pyDecimal_lt_10 (n : Nat) (h : n < 10) : pyDecimal n = [Nat.digitChar n] := by
  simp [pyDecimal, pyDecimalAux, h]

theorem pyDecimal_two_digit (n : Nat) (h1 : 10 ≤ n) (h2 : n ≤ 99) :
    pyDecimal n = [Nat.digitChar (n / 10), Nat.digitChar (n % 10)] := by
  obtain ⟨m, rfl⟩ : ∃ m, n = m + 1 := ⟨n - 1, by omega⟩
  have hd : (m + 1) / 10 < 10 := by omega
  simp only [pyDecimal, pyDecimalAux]
  rw [if_neg (by omega), if_pos hd]
  simp

theorem pyFormat02d_eq_twoDigits (n : Nat) (h : n ≤ 99) :
    pyFormat02d (n : Int) = twoDigits n := by
  have h0 : ¬ ((n : Int) < 0) := by omega
  by_cases h10 : n < 10
  · have hdiv : n / 10 = 0 := Nat.div_eq_of_lt h10
    have hmod : n % 10 = n := Nat.mod_eq_of_lt h10
    simp only [pyFormat02d, if_neg h0, Int.natAbs_ofNat, pyDecimal_lt_10 n h10, twoDigits,
      hdiv, hmod]
    rfl
  · simp only [pyFormat02d, if_neg h0, Int.natAbs_ofNat,
      pyDecimal_two_digit n (by omega) h, twoDigits]
    rfl

theorem twoDigits_length (n : Nat) : (twoDigits n).length = 2 := rfl

/-- C8 fails as stated for timestamps outside 2000-2099: for the year 2100
the `%02d` rendering of `year - 2000` is the three characters `"100"`, so
`settime` issues 14 single-byte writes, not 13. -/
theorem claim_C8_counterexample :
    ((settimeTrace ⟨2100, 1, 1, 0, 0, 0⟩).1).length ≠ 13 := by decide

/-- C8 (amended): for every datetime timestamp whose year lies in
2000..2099 (with the field ranges Python's `datetime` guarantees),
`settime` slow-writes exactly the 13-character command `'t'` followed by
day, month, year−2000, hour, minute and second, each as two zero-padded
decimal digits, issued as 13 single-byte transport writes in order, and
then requires the expected response `"Datum und Zeit gestellt"`. -/
theorem claim_C8_settime_command (t : PyDatetime)
    (hy1 : 2000 ≤ t.year) (hy2 : t.year ≤ 2099)
    (hd : t.day ≤ 31) (hmo : t.month ≤ 12) (hh : t.hour ≤ 23)
    (hmi : t.minute ≤ 59) (hs : t.second ≤ 59) :
    settimeCommand t = 't' :: (twoDigits t.day ++ twoDigits t.month ++
        twoDigits (t.year - 2000) ++ twoDigits t.hour ++ twoDigits t.minute ++
        twoDigits t.second) ∧
    (settimeCommand t).length = 13 ∧
    (settimeTrace t).1 = (settimeCommand t).map (fun c => [c]) ∧
    (∀ w ∈ (settimeTrace t).1, w.length = 1) ∧
    ((settimeTrace t).1).length = 13 ∧
    (settimeTrace t).2 = "Datum und Zeit gestellt" := by
  have hyear : ((t.year : Int) - 2000) = ((t.year - 2000 : Nat) : Int) := by omega
  have hcmd : settimeCommand t = 't' :: (twoDigits t.day ++ twoDigits t.month ++
      twoDigits (t.year - 2000) ++ twoDigits t.hour ++ twoDigits t.minute ++
      twoDigits t.second) := by
    simp only [settimeCommand, hyear,
      pyFormat02d_eq_twoDigits t.day (by omega),
      pyFormat02d_eq_twoDigits t.month (by omega),
      pyFormat02d_eq_twoDigits (t.year - 2000) (by omega),
      pyFormat02d_eq_twoDigits t.hour (by omega),
      pyFormat02d_eq_twoDigits t.minute (by omega),
      pyFormat02d_eq_twoDigits t.second (by omega)]
  have hlen : (settimeCommand t).length = 13 := by
    rw [hcmd]
    simp [twoDigits]
  refine ⟨hcmd, hlen, rfl, ?_, ?_, rfl⟩
  · intro w hw
    simp only [settimeTrace, writeslowWrites, List.mem_map] at hw
    obtain ⟨c, -, rfl⟩ := hw
    rfl
  · simp only [settimeTrace, writeslowWrites, List.length_map]
    exact hlen

theorem claim_C8_witness :
    settimeCommand ⟨2021, 3, 15, 10, 30, 0⟩ = 't' :: (twoDigits 15 ++ twoDigits 3 ++
        twoDigits 21 ++ twoDigits 10 ++ twoDigits 30 ++ twoDigits 0) ∧
    (settimeCommand ⟨2021, 3, 15, 10, 30, 0⟩).length = 13 ∧
    (settimeTrace ⟨2021, 3, 15, 10, 30, 0⟩).1 =
      (settimeCommand ⟨2021, 3, 15, 10, 30, 0⟩).map (fun c => [c]) ∧
    (∀ w ∈ (settimeTrace ⟨2021, 3, 15, 10, 30, 0⟩).1, w.length = 1) ∧
    ((settimeTrace ⟨2021, 3, 15, 10, 30, 0⟩).1).length = 13 ∧
    (settimeTrace ⟨2021, 3, 15, 10, 30, 0⟩).2 = "Datum und Zeit gestellt" :=
  claim_C8_settime_command ⟨2021, 3, 15, 10, 30, 0⟩ (by decide) (by decide) (by decide)
    (by decide) (by decide) (by decide) (by decide)

theorem hexVal_lt (c : Char) (h : Nat) (hh : hexVal c = some h) : h < 16 := by
  simp only [hexVal] at hh
  split at hh
  · rename_i h1
    obtain rfl := Option.some.inj hh
    omega
  · split at hh
    · rename_i h2
      obtain rfl := Option.some.inj hh
      omega
    · split at hh
      · rename_i h3
        obtain rfl := Option.some.inj hh
        omega
      · exact absurd hh (by simp)

theorem hexByte_lt (c1 c2 : Char) (b : Nat) (h : hexByte c1 c2 = some b) : b < 256 := by
  cases h1 : hexVal c1 with
  | none => simp [hexByte, h1] at h
  | some v1 =>
    cases h2 : hexVal c2 with
    | none => simp [hexByte, h1, h2] at h
    | some v2 =>
      simp only [hexByte, h1, h2] at h
      simp at h
      have hv1 := hexVal_lt c1 v1 h1
      have hv2 := hexVal_lt c2 v2 h2
      omega

theorem hexPairs_lt (l : List Char) : ∀ (ds : List Nat), hexPairs l = some ds →
    ∀ d ∈ ds, d < 256 := by
  induction l using hexPairs.induct with
  | case1 =>
    intro ds h
    obtain rfl := Option.some.inj h
    simp
  | case2 c =>
    intro ds h
    obtain rfl := Option.some.inj h
    simp
  | case3 c1 c2 rest ih =>
    intro ds h
    cases h1 : hexByte c1 c2 with
    | none => simp [hexPairs, h1] at h
    | some b =>
      cases h2 : hexPairs rest with
      | none => simp [hexPairs, h1, h2] at h
      | some bs =>
        simp only [hexPairs, h1, h2] at h
        simp at h
        subst h
        intro d hd
        rcases List.mem_cons.mp hd with rfl | hdbs
        · exact hexByte_lt c1 c2 d h1
        · exact ih bs h2 d hdbs

theorem hexPairsAll_lt (rest : List String) : ∀ (dss : List (List Nat)),
    hexPairsAll rest = some dss → ∀ d ∈ dss.flatten, d < 256 := by
  induction rest with
  | nil =>
    intro dss h
    obtain rfl := Option.some.inj h
    simp
  | cons m ms ih =>
    intro dss h
    cases h1 : hexPairs m.data with
    | none => simp [hexPairsAll, h1] at h
    | some d =>
      cases h2 : hexPairsAll ms with
      | none => simp [hexPairsAll, h1, h2] at h
      | some ds2 =>
        simp only [hexPairsAll, h1, h2] at h
        simp at h
        subst h
        intro x hx
        rw [List.flatten_cons] at hx
        rcases List.mem_append.mp hx with hxd | hxf
        · exact hexPairs_lt m.data d h1 x hxd
        · exact ih ds2 h2 x hxf

theorem readconfigTail_eq (rest : List String) : ∀ (dss : List (List Nat)),
    hexPairsAll rest = some dss → readconfigTail rest = .ok dss.flatten := by
  induction rest with
  | nil =>
    intro dss h
    obtain rfl := Option.some.inj h
    rfl
  | cons m ms ih =>
    intro dss h
    cases h1 : hexPairs m.data with
    | none => simp [hexPairsAll, h1] at h
    | some d =>
      cases h2 : hexPairsAll ms with
      | none => simp [hexPairsAll, h1, h2] at h
      | some ds2 =>
        simp only [hexPairsAll, h1, h2] at h
        simp at h
        subst h
        simp only [readconfigTail, h1, ih ds2 h2, List.flatten_cons]

/-- C9: `readconfig` discards the first popped line, special-parses the
second through the three-field hex pattern (fatal error when it does not
match), turning its first two fields into one byte each and its third
field into hex payload bytes, decodes every later line as raw hex payload
bytes, and ends when a pop times out (modelled by queue exhaustion). -/
theorem claim_C9_readconfig :
    (∀ (l1 l2 : String) (rest : List String) (a b : Nat) (payload : String)
        (ds : List Nat) (dss : List (List Nat)),
        matchConfigFirstline l2 = some (a, b, payload) →
        a < 256 → b < 256 →
        hexPairs payload.data = some ds →
        hexPairsAll rest = some dss →
        readconfigQ (l1 :: l2 :: rest) = .ok (a :: b :: (ds ++ dss.flatten))) ∧
    (∀ (l1 l2 : String) (rest : List String),
        matchConfigFirstline l2 = none →
        readconfigQ (l1 :: l2 :: rest) =
          .error "First configuration data line format unexpected.") ∧
    (∀ l1 : String, readconfigQ [l1] = .ok []) ∧
    readconfigQ [] = .ok [] := by
  refine ⟨?_, ?_, fun l1 => rfl, rfl⟩
  · intro l1 l2 rest a b payload ds dss hm ha hb hds hdss
    have htail := readconfigTail_eq rest dss hdss
    simp only [readconfigQ, readconfigLoop, hm, hds, htail, pyBytes]
    rw [if_pos]
    simp only [List.all_eq_true, decide_eq_true_eq]
    intro d hdmem
    rcases List.mem_cons.mp hdmem with rfl | hdmem
    · exact ha
    rcases List.mem_cons.mp hdmem with rfl | hdmem
    · exact hb
    rcases List.mem_append.mp hdmem with hds2 | hfl
    · exact hexPairs_lt payload.data ds hds d hds2
    · exact hexPairsAll_lt rest dss hdss d hfl
  · intro l1 l2 rest hm
    simp only [readconfigQ, readconfigLoop, hm]

theorem claim_C9_witness :
    readconfigQ ["x", "01 02 0304", "0506"] = .ok (1 :: 2 :: ([3, 4] ++ [[5, 6]].flatten)) :=
  claim_C9_readconfig.1 "x" "01 02 0304" ["0506"] 1 2 "0304" [3, 4] [[5, 6]]
    rfl (by decide) (by decide) rfl rfl

end GSConn
